import Mathlib

/-!
Verification of the `octets` library (`octets.py`): a bytes wrapper class
offering construction from numeric / text / bytes sources, indexing and
iteration over single-byte chunks, percent-style formatting, and rejection
of implicit text conversion.

The embedding targets the Python 3 branches of the source (`six.PY3`,
`_LESS_THAN_PY35 = False`, i.e. the `__mod__` at lines 140-141).

A byte string is a `List Nat` of byte values; a text string is a `List Nat`
of Unicode code points.  Host primitives the source delegates to
(`bytes` slicing, `str.encode`, `str()` of numbers, `bytes.__mod__`) are
modelled after their documented CPython semantics, as noted on each
definition.
-/

namespace Octets

/-- The Python exception kinds raised by `octets` and the host primitives
it delegates to. -/
inductive PyError where
  | typeError (msg : String)
  | valueError (msg : String)
  | indexError
  | unicodeEncodeError
  | overflowError (msg : String)
  deriving DecidableEq, Repr

/-! ## Host primitive: `bytes` slicing

Model of CPython `PySlice_Unpack` / `PySlice_AdjustIndices` and the
extraction loop of `bytes.__getitem__` with a slice key.  `none` stands for
an omitted (`None`) bound. -/

/-- Adjusted start index: default by step sign, negative indices get the
length added, then clamping, exactly as `PySlice_AdjustIndices`. -/
def adjStart (n : Nat) (lo : Option Int) (st : Int) : Int :=
  match lo with
  | none => if st < 0 then (n : Int) - 1 else 0
  | some l =>
    if l < 0 then
      (if l + n < 0 then (if st < 0 then -1 else 0) else l + n)
    else
      (if l ≥ (n : Int) then (if st < 0 then (n : Int) - 1 else n) else l)

/-- Adjusted stop index, exactly as `PySlice_AdjustIndices`. -/
def adjStop (n : Nat) (hi : Option Int) (st : Int) : Int :=
  match hi with
  | none => if st < 0 then -1 else (n : Int)
  | some h =>
    if h < 0 then
      (if h + n < 0 then (if st < 0 then -1 else 0) else h + n)
    else
      (if h ≥ (n : Int) then (if st < 0 then (n : Int) - 1 else n) else h)

/-- Number of elements a slice selects (CPython's `slicelength`
computation). -/
def sliceCount (start stop st : Int) : Nat :=
  if 0 < st then
    (if start < stop then (stop - start - 1).toNat / st.toNat + 1 else 0)
  else
    (if stop < start then (start - stop - 1).toNat / (-st).toNat + 1 else 0)

/-- The byte string a slice with a nonzero (or omitted) step extracts:
CPython's loop `for k in range(slicelength): dest[k] = src[start + k*step]`. -/
def pySliceCore (b : List Nat) (lo hi step : Option Int) : List Nat :=
  let st := step.getD 1
  let start := adjStart b.length lo st
  let stop := adjStop b.length hi st
  (List.range (sliceCount start stop st)).map
    (fun (k : Nat) => b.getD (start + (k : Int) * st).toNat 0)

/-- Full model of `bytes.__getitem__` with a slice key: a zero step is a
`ValueError`, otherwise extraction per `pySliceCore`. -/
def pySliceBytes (b : List Nat) (lo hi step : Option Int) :
    Except PyError (List Nat) :=
  if step = some 0 then .error (.valueError "slice step cannot be zero")
  else .ok (pySliceCore b lo hi step)

/-! ## Host primitive: text encoding

`str.encode` is modelled by an abstract `Encoding` (the per-code-point
byte translation, `none` meaning the code point is unencodable) and an
abstract `ErrorPolicy` (the replacement bytes an error handler substitutes
for an unencodable code point, `none` meaning the handler raises). -/

/-- An abstract character encoding: each code point either encodes to a
byte string or is unencodable. -/
structure Encoding where
  encodeChar : Nat → Option (List Nat)

/-- An abstract encoding-error policy (Python error handler): replacement
bytes for an unencodable code point, or `none` to raise. -/
structure ErrorPolicy where
  handle : Nat → Option (List Nat)

/-- `t.encode(e)` — strict default error behavior: the first unencodable
code point raises `UnicodeEncodeError`. -/
def pyEncode (e : Encoding) : List Nat → Except PyError (List Nat)
  | [] => .ok []
  | c :: cs =>
    match e.encodeChar c with
    | none => .error .unicodeEncodeError
    | some bs =>
      match pyEncode e cs with
      | .error err => .error err
      | .ok rest => .ok (bs ++ rest)

/-- `t.encode(e, p)` — unencodable code points go through the error
policy, which substitutes replacement bytes or raises. -/
def pyEncodeWith (e : Encoding) (p : ErrorPolicy) :
    List Nat → Except PyError (List Nat)
  | [] => .ok []
  | c :: cs =>
    match (match e.encodeChar c with
           | some bs => some bs
           | none => p.handle c) with
    | none => .error .unicodeEncodeError
    | some bs =>
      match pyEncodeWith e p cs with
      | .error err => .error err
      | .ok rest => .ok (bs ++ rest)

/-- The ASCII codec: code points below 128 map to themselves, the rest are
unencodable. -/
def asciiEncoding : Encoding :=
  ⟨fun c => if c < 128 then some [c] else none⟩

/-! ## Host primitive: `str()` of numbers

`str(int)` is the usual base-10 form with a leading `-` for negatives and
is computed here; `float` and `Decimal` sources are modelled by the code
points their host `str()` conversion yields (the host's float/decimal
formatting itself is not re-implemented). -/

/-- Code points of the base-10 digits of a natural number (`"0"` for 0). -/
def natDigits (n : Nat) : List Nat :=
  (Nat.toDigits 10 n).map Char.toNat

/-- Code points of `str(i)` for a Python `int`. -/
def intStr : Int → List Nat
  | .ofNat n => natDigits n
  | .negSucc m => 45 :: natDigits (m + 1)

/-- A Python numeric value (`_numeric_types` in the source): an `int`, or
a `float`/`Decimal` modelled by the code points of its `str()` form. -/
inductive PyNumeric where
  | int (n : Int)
  | float (s : List Nat)
  | decimal (s : List Nat)
  deriving DecidableEq, Repr

/-- `str(object)` for a numeric object. -/
def pyStrNum : PyNumeric → List Nat
  | .int n => intStr n
  | .float s => s
  | .decimal s => s

/-! ## The `octets` constructor -/

/-- A runtime value passed as the `object` argument of `octets.__init__`:
numeric, text (code points), bytes, or anything else (carrying its type
name for the error message). -/
inductive PyObject where
  | num (v : PyNumeric)
  | text (t : List Nat)
  | bytes (b : List Nat)
  | other (typeName : String)
  deriving DecidableEq, Repr

/-- `octets.__init__` (lines 35-78): the computed `_bytes` attribute, or
the raised exception.  Dispatch order follows the source: numeric, then
text, then bytes, then reject.  `if errors:` is modelled as an
`Option ErrorPolicy` match (the only falsy non-`None` handler value, the
empty string, is not a valid handler). -/
def octetsInit (object : PyObject) (encoding : Option Encoding)
    (errors : Option ErrorPolicy) : Except PyError (List Nat) :=
  match object with
  | .num v => pyEncode asciiEncoding (pyStrNum v)
  | .text t =>
    match encoding with
    | none => .error (.typeError "string argument without an encoding")
    | some e =>
      match errors with
      | some p => pyEncodeWith e p t
      | none => pyEncode e t
  | .bytes b => .ok b
  | .other ty => .error (.typeError ("Cannot convert object of type " ++ ty))

/-- `octets()` with no arguments: the source's parameter defaults are
`object=b''`, `encoding=None`, `errors=None` (line 35). -/
def octetsInitNoArgs : Except PyError (List Nat) :=
  octetsInit (.bytes []) none none

/-! ## `__str__`, `__iter__`, `__getitem__` (Python 3 branch) -/

/-- `octets.__str__` (= `_to_text`, lines 80-81 and 98-99): always raises
`TypeError`, whatever the stored bytes. -/
def octetsStr (_b : List Nat) : Except PyError (List Nat) :=
  .error (.typeError "Cannot implicitly decode octets instance")

/-- `octets.__iter__` (lines 101-103): the (finite, restartable) sequence
`self._bytes[i:i+1]` for `i in range(len(self._bytes))`. -/
def octetsIter (b : List Nat) : List (List Nat) :=
  (List.range b.length).map
    (fun (i : Nat) => pySliceCore b (some (i : Int)) (some ((i : Int) + 1)) none)

/-- A key passed to `octets.__getitem__`: a slice, an integer, or anything
else. -/
inductive PyKey where
  | slice (lo hi step : Option Int)
  | int (i : Int)
  | other (typeName : String)
  deriving Repr

/-- `octets.__getitem__` (lines 105-113): slices delegate to bytes
slicing; an integer key is bounds-checked by `self._bytes[key]` (raising
`IndexError`) and then sliced as `self._bytes[key:key+1]`, with upper
bound `None` when `key == -1`; any other key raises `TypeError`. -/
def octetsGetitem (b : List Nat) : PyKey → Except PyError (List Nat)
  | .slice lo hi step => pySliceBytes b lo hi step
  | .int i =>
    if i < -(b.length : Int) ∨ (b.length : Int) ≤ i then .error .indexError
    else .ok (pySliceCore b (some i)
      (if i = -1 then none else some (i + 1)) none)
  | .other _ => .error (.typeError "octets indices must be integers")

/-! ## Host primitive: `bytes.__mod__` (percent formatting, PEP 461)

`octets.__mod__` on Python >= 3.5 (lines 140-141) is
`return self._bytes % to_interpolate`.  The model below follows CPython's
`_PyBytes_FormatEx`, restricted to directives without mapping keys, flags,
width, precision or length modifiers (a template using those takes the
unsupported-format-character branch) and to bytes / text / int argument
values; dict argument collections are not modelled. -/

/-- A runtime value supplied as a `%`-formatting argument. -/
inductive FmtVal where
  | bytes (b : List Nat)
  | text (t : List Nat)
  | int (n : Int)
  deriving DecidableEq, Repr

/-- The right operand of `%`: a single value or a tuple. -/
inductive FmtArgs where
  | single (v : FmtVal)
  | tuple (vs : List FmtVal)
  deriving DecidableEq, Repr

/-- CPython treats a non-tuple right operand as a one-element argument
list. -/
def argsList : FmtArgs → List FmtVal
  | .single v => [v]
  | .tuple vs => vs

/-- Code point of a lowercase hexadecimal digit. -/
def hexDigit (n : Nat) : Nat :=
  if n < 10 then 48 + n else 87 + n

/-- Exactly `w` lowercase hex digit code points of `n`, zero-padded. -/
def hexFixed (w n : Nat) : List Nat :=
  let ds := (Nat.toDigits 16 n).map Char.toNat
  List.replicate (w - ds.length) 48 ++ ds

/-- Code points of the base-`base` form of an `int` (sign, then digits in
lowercase), as `%o`/`%x` produce. -/
def intBase (base : Nat) : Int → List Nat
  | .ofNat n => (Nat.toDigits base n).map Char.toNat
  | .negSucc m => 45 :: (Nat.toDigits base (m + 1)).map Char.toNat

/-- Uppercase a lowercase hex-digit code point (for `%X`). -/
def upperHex (c : Nat) : Nat :=
  if 97 ≤ c ∧ c ≤ 102 then c - 32 else c

/-- Escape one code point of a text repr under quote character `q`
(CPython `unicode_repr` as restricted by `ascii()`: non-ASCII code points
are always escaped). -/
def asciiEscapeChar (q c : Nat) : List Nat :=
  if c = 92 then [92, 92]
  else if c = q then [92, q]
  else if c = 9 then [92, 116]
  else if c = 10 then [92, 110]
  else if c = 13 then [92, 114]
  else if c < 32 ∨ c = 127 then 92 :: 120 :: hexFixed 2 c
  else if c < 127 then [c]
  else if c < 256 then 92 :: 120 :: hexFixed 2 c
  else if c < 65536 then 92 :: 117 :: hexFixed 4 c
  else 92 :: 85 :: hexFixed 8 c

/-- Escape one byte of a bytes repr under quote character `q`
(CPython `bytes_repr`). -/
def bytesEscapeChar (q c : Nat) : List Nat :=
  if c = 92 then [92, 92]
  else if c = q then [92, q]
  else if c = 9 then [92, 116]
  else if c = 10 then [92, 110]
  else if c = 13 then [92, 114]
  else if c < 32 ∨ c ≥ 127 then 92 :: 120 :: hexFixed 2 c
  else [c]

/-- CPython's repr quote character: a single quote, switching to a double
quote when the content holds a single quote but no double quote. -/
def reprQuote (content : List Nat) : Nat :=
  if 39 ∈ content ∧ ¬ 34 ∈ content then 34 else 39

/-- Code points of `ascii(v)` for the modelled argument values:
`ascii(int)` is its decimal form, `ascii(str)` the quoted escaped repr,
`ascii(bytes)` the `b`-prefixed quoted escaped repr. -/
def pyAscii : FmtVal → List Nat
  | .int n => intStr n
  | .text t =>
    let q := reprQuote t
    q :: (t.map (asciiEscapeChar q)).flatten ++ [q]
  | .bytes b =>
    let q := reprQuote b
    98 :: q :: (b.map (bytesEscapeChar q)).flatten ++ [q]

/-- The conversion characters the model supports:
`s b a r d i u o x X c`. -/
def isConv (c : Nat) : Bool :=
  c = 115 ∨ c = 98 ∨ c = 97 ∨ c = 114 ∨ c = 100 ∨ c = 105 ∨ c = 117 ∨
  c = 111 ∨ c = 120 ∨ c = 88 ∨ c = 99

/-- The Python type name of an argument value, for error messages. -/
def fmtValTypeName : FmtVal → String
  | .bytes _ => "bytes"
  | .text _ => "str"
  | .int _ => "int"

/-- Substitute one argument value into one conversion directive
(the per-directive switch of `_PyBytes_FormatEx`):
`%s`/`%b` require bytes; `%a`/`%r` take `ascii()` of anything;
`%d`/`%i`/`%u`/`%o`/`%x`/`%X` require a number; `%c` takes a byte value
in range or a single byte. -/
def applyConv (c : Nat) (v : FmtVal) : Except PyError (List Nat) :=
  if c = 115 ∨ c = 98 then
    match v with
    | .bytes b => .ok b
    | _ => .error (.typeError
        ("%b requires a bytes-like object, or an object that implements " ++
         "__bytes__, not " ++ fmtValTypeName v))
  else if c = 97 ∨ c = 114 then .ok (pyAscii v)
  else if c = 100 ∨ c = 105 ∨ c = 117 then
    match v with
    | .int n => .ok (intStr n)
    | _ => .error (.typeError
        ("%d format: a real number is required, not " ++ fmtValTypeName v))
  else if c = 111 then
    match v with
    | .int n => .ok (intBase 8 n)
    | _ => .error (.typeError
        ("%o format: an integer is required, not " ++ fmtValTypeName v))
  else if c = 120 then
    match v with
    | .int n => .ok (intBase 16 n)
    | _ => .error (.typeError
        ("%x format: an integer is required, not " ++ fmtValTypeName v))
  else if c = 88 then
    match v with
    | .int n => .ok ((intBase 16 n).map upperHex)
    | _ => .error (.typeError
        ("%X format: an integer is required, not " ++ fmtValTypeName v))
  else if c = 99 then
    match v with
    | .int n =>
      if 0 ≤ n ∧ n < 256 then .ok [n.toNat]
      else .error (.overflowError "%c arg not in range(256)")
    | .bytes [x] => .ok [x]
    | _ => .error (.typeError
        "%c requires an integer in range(256) or a single byte")
  else .error (.valueError "unsupported format character")

/-- Prepend emitted bytes to the rest of a formatting run, propagating a
raised exception. -/
def emit (piece : List Nat) : Except PyError (List Nat) →
    Except PyError (List Nat)
  | .error e => .error e
  | .ok out => .ok (piece ++ out)

/-- The formatting loop of `_PyBytes_FormatEx`: literal bytes are copied;
`%%` emits a percent sign; a conversion directive consumes the next
argument; leftover arguments at the end raise `TypeError`. -/
def bytesFormatLoop : List Nat → List FmtVal → Except PyError (List Nat)
  | [], args =>
    if args.isEmpty then .ok []
    else .error (.typeError
      "not all arguments converted during bytes formatting")
  | b :: rest, args =>
    if b = 37 then
      match rest with
      | [] => .error (.valueError "incomplete format")
      | c :: rest2 =>
        if c = 37 then emit [37] (bytesFormatLoop rest2 args)
        else if isConv c then
          match args with
          | [] => .error (.typeError "not enough arguments for format string")
          | v :: args2 =>
            match applyConv c v with
            | .error e => .error e
            | .ok piece => emit piece (bytesFormatLoop rest2 args2)
        else .error (.valueError "unsupported format character")
    else emit [b] (bytesFormatLoop rest args)

/-- `self._bytes % to_interpolate` — the host primitive applied to the
template and the argument list. -/
def bytesFormat (fmt : List Nat) (args : FmtArgs) : Except PyError (List Nat) :=
  bytesFormatLoop fmt (argsList args)

/-- `octets.__mod__` on Python >= 3.5 (lines 140-141): delegate to the
host's bytes percent formatting. -/
def octetsMod (b : List Nat) (args : FmtArgs) : Except PyError (List Nat) :=
  bytesFormat b args

/-- A Python runtime value holding byte content: either an `octets`
instance or a host `bytes` object.  The two classes are observably
different through the class-dependent behavior of `str()` and
iteration. -/
inductive PyBytesLike where
  | octetsInstance (b : List Nat)
  | hostBytes (b : List Nat)
  deriving DecidableEq, Repr

/-- `octets.__mod__` (lines 140-141) together with the runtime class of
its result: `return self._bytes % to_interpolate` hands back the host
primitive's `bytes` result itself — no `octets` instance is constructed
around it. -/
def octetsModTyped (b : List Nat) (args : FmtArgs) :
    Except PyError PyBytesLike :=
  (bytesFormat b args).map PyBytesLike.hostBytes

/-- `str(v)` for the two classes: an `octets` instance raises `TypeError`
(`__str__`, lines 98-99); a host `bytes` object converts successfully to
its repr text (Python 3 `str(bytes)`). -/
def pyStr : PyBytesLike → Except PyError (List Nat)
  | .octetsInstance b => octetsStr b
  | .hostBytes b => .ok (pyAscii (.bytes b))

/-- `list(iter(v))` for the two classes: an `octets` instance yields its
one-byte chunks (`__iter__`, lines 101-103); a host `bytes` object yields
the numeric byte values (Python 3 `bytes` iteration). -/
def pyIterate : PyBytesLike → List FmtVal
  | .octetsInstance b => (octetsIter b).map FmtVal.bytes
  | .hostBytes b => b.map (fun c => FmtVal.int (c : Int))

/-! ## Spec-side statement of standard slice semantics

The spec (§4.2) describes slice access as "standard slice semantics
(half-open range, negative indices count from the end, `step` may be
negative for reversal)", returning the empty sequence when the range is
empty.  The definitions below state that directly: bounds are normalized
by adding the length to negative indices and clamping into the valid
range, then indices are selected one step at a time while they lie
strictly before the stop bound in the direction of travel. -/

/-- Spec-side normalized start bound: omitted start begins at the first
(or, stepping backwards, the last) element; a negative index counts from
the end; the result is clamped into the addressable range. -/
def specStart (n : Nat) (lo : Option Int) (st : Int) : Int :=
  match lo with
  | none => if st < 0 then (n : Int) - 1 else 0
  | some l =>
    let l' := if l < 0 then l + n else l
    if st < 0 then max (-1) (min l' ((n : Int) - 1)) else max 0 (min l' n)

/-- Spec-side normalized stop bound (exclusive): omitted stop runs to the
end (or, stepping backwards, past the first element); a negative index
counts from the end; the result is clamped. -/
def specStop (n : Nat) (hi : Option Int) (st : Int) : Int :=
  match hi with
  | none => if st < 0 then -1 else (n : Int)
  | some h =>
    let h' := if h < 0 then h + n else h
    if st < 0 then max (-1) (min h' ((n : Int) - 1)) else max 0 (min h' n)

/-- Spec-side selection loop: take the element at the current index and
advance by `st`, while the current index lies strictly before `stop` in
the direction of travel; otherwise the selection is over (empty when the
range is empty). -/
def specSliceGo (b : List Nat) (stop st cur : Int) : List Nat :=
  if (0 < st ∧ cur < stop) ∨ (st < 0 ∧ stop < cur) then
    b.getD cur.toNat 0 :: specSliceGo b stop st (cur + st)
  else []
termination_by (if 0 < st then stop - cur else cur - stop).toNat
decreasing_by
  split_ifs <;> omega

/-- Spec-side slice: normalize the bounds, then select. -/
def specSlice (b : List Nat) (lo hi step : Option Int) : List Nat :=
  let st := step.getD 1
  specSliceGo b (specStop b.length hi st) st (specStart b.length lo st)

/-! ## Helper lemmas -/

theorem specStart_eq_adjStart (n : Nat) (lo : Option Int) (st : Int) :
    specStart n lo st = adjStart n lo st := by
  cases lo with
  | none => rfl
  | some l =>
    simp only [specStart, adjStart]
    split_ifs <;> omega

theorem specStop_eq_adjStop (n : Nat) (hi : Option Int) (st : Int) :
    specStop n hi st = adjStop n hi st := by
  cases hi with
  | none => rfl
  | some h =>
    simp only [specStop, adjStop]
    split_ifs <;> omega

theorem sliceCount_ne_zero (cur stop st : Int)
    (h : (0 < st ∧ cur < stop) ∨ (st < 0 ∧ stop < cur)) :
    sliceCount cur stop st ≠ 0 := by
  rcases h with ⟨h1, h2⟩ | ⟨h1, h2⟩
  · rw [sliceCount, if_pos h1, if_pos h2]
    exact Nat.succ_ne_zero _
  · rw [sliceCount, if_neg (by omega), if_pos h2]
    exact Nat.succ_ne_zero _

theorem sliceCount_eq_zero (cur stop st : Int) (hst : st ≠ 0)
    (h : ¬ ((0 < st ∧ cur < stop) ∨ (st < 0 ∧ stop < cur))) :
    sliceCount cur stop st = 0 := by
  push_neg at h
  rw [sliceCount]
  split_ifs with h1 h2 h3 <;> first | rfl | omega

theorem sliceCount_step (cur stop st : Int) (hst : st ≠ 0) (m : Nat)
    (h : sliceCount cur stop st = m + 1) :
    sliceCount (cur + st) stop st = m := by
  by_cases hpos : 0 < st
  · rw [sliceCount, if_pos hpos] at h
    rw [sliceCount, if_pos hpos]
    by_cases hlt : cur < stop
    · rw [if_pos hlt] at h
      have hm : (stop - cur - 1).toNat / st.toNat = m := by omega
      by_cases hlt2 : cur + st < stop
      · rw [if_pos hlt2]
        have hs : 0 < st.toNat := by omega
        have hds : (stop - cur - 1).toNat
            = (stop - (cur + st) - 1).toNat + st.toNat := by omega
        rw [hds, Nat.add_div_right _ hs] at hm
        omega
      · rw [if_neg hlt2]
        have hlt3 : (stop - cur - 1).toNat < st.toNat := by omega
        rw [Nat.div_eq_of_lt hlt3] at hm
        omega
    · rw [if_neg hlt] at h
      omega
  · rw [sliceCount, if_neg hpos] at h
    rw [sliceCount, if_neg hpos]
    by_cases hlt : stop < cur
    · rw [if_pos hlt] at h
      have hm : (cur - stop - 1).toNat / (-st).toNat = m := by omega
      by_cases hlt2 : stop < cur + st
      · rw [if_pos hlt2]
        have hs : 0 < (-st).toNat := by omega
        have hds : (cur - stop - 1).toNat
            = ((cur + st) - stop - 1).toNat + (-st).toNat := by omega
        rw [hds, Nat.add_div_right _ hs] at hm
        omega
      · rw [if_neg hlt2]
        have hlt3 : (cur - stop - 1).toNat < (-st).toNat := by omega
        rw [Nat.div_eq_of_lt hlt3] at hm
        omega
    · rw [if_neg hlt] at h
      omega

theorem specSliceGo_eq_count (b : List Nat) (stop st : Int) (hst : st ≠ 0) :
    ∀ (cnt : Nat) (cur : Int), sliceCount cur stop st = cnt →
    specSliceGo b stop st cur
      = (List.range cnt).map
          (fun (k : Nat) => b.getD (cur + (k : Int) * st).toNat 0) := by
  intro cnt
  induction cnt with
  | zero =>
    intro cur h
    rw [specSliceGo, if_neg (fun hc => sliceCount_ne_zero cur stop st hc h)]
    simp
  | succ m ih =>
    intro cur h
    have hcond : (0 < st ∧ cur < stop) ∨ (st < 0 ∧ stop < cur) := by
      by_contra hc
      rw [sliceCount_eq_zero cur stop st hst hc] at h
      omega
    rw [specSliceGo, if_pos hcond, List.range_succ_eq_map, List.map_cons,
      List.map_map, ih (cur + st) (sliceCount_step cur stop st hst m h)]
    congr 1
    · norm_num
    · apply List.map_congr_left
      intro k _
      have harith : cur + st + (k : Int) * st = cur + ((k : Int) + 1) * st := by
        ring
      simp [Function.comp, harith]

theorem pySliceCore_eq_specSlice (b : List Nat) (lo hi step : Option Int)
    (h : step ≠ some 0) : pySliceCore b lo hi step = specSlice b lo hi step := by
  have hst : step.getD 1 ≠ 0 := by
    cases step with
    | none => simp
    | some s => simpa using fun hs => h (by rw [hs])
  rw [pySliceCore, specSlice, specStart_eq_adjStart, specStop_eq_adjStop,
    specSliceGo_eq_count b _ _ hst _ _ rfl]

theorem adjStart_some_pos (n : Nat) (l st : Int) (hst : 0 ≤ st) :
    adjStart n (some l) st = max 0 (min (if l < 0 then l + n else l) n) := by
  simp only [adjStart]
  split_ifs <;> omega

theorem adjStop_some_pos (n : Nat) (h st : Int) (hst : 0 ≤ st) :
    adjStop n (some h) st = max 0 (min (if h < 0 then h + n else h) n) := by
  simp only [adjStop]
  split_ifs <;> omega

theorem adjStop_none_pos (n : Nat) (st : Int) (hst : 0 ≤ st) :
    adjStop n none st = n := by
  simp only [adjStop]
  split_ifs <;> omega

theorem sliceCount_one (a : Int) : sliceCount a (a + 1) 1 = 1 := by
  rw [sliceCount, if_pos (by norm_num), if_pos (by omega)]
  have h0 : a + 1 - a - 1 = (0 : Int) := by ring
  rw [h0]
  norm_num

theorem pySliceCore_single (b : List Nat) (i : Int)
    (h1 : -(b.length : Int) ≤ i) (h2 : i < (b.length : Int)) :
    pySliceCore b (some i) (if i = -1 then none else some (i + 1)) none
      = [b.getD (if i < 0 then i + b.length else i).toNat 0] := by
  have hstart : adjStart b.length (some i) ((none : Option Int).getD 1)
      = (if i < 0 then i + b.length else i) := by
    rw [Option.getD_none, adjStart_some_pos _ _ _ (by norm_num)]
    split_ifs <;> omega
  have hstop : adjStop b.length (if i = -1 then none else some (i + 1))
      ((none : Option Int).getD 1) = (if i < 0 then i + b.length else i) + 1 := by
    rw [Option.getD_none]
    by_cases hm1 : i = -1
    · rw [if_pos hm1, adjStop_none_pos _ _ (by norm_num)]
      split_ifs <;> omega
    · rw [if_neg hm1, adjStop_some_pos _ _ _ (by norm_num)]
      split_ifs <;> omega
  rw [pySliceCore, hstart, hstop]
  simp only [Option.getD_none]
  rw [sliceCount_one]
  have hr : List.range 1 = [0] := rfl
  rw [hr]
  simp

theorem range_map_getD (b : List Nat) :
    (List.range b.length).map (fun (i : Nat) => [b.getD i 0])
      = b.map (fun c => [c]) := by
  induction b with
  | nil => simp
  | cons a t ih =>
    rw [List.length_cons, List.range_succ_eq_map, List.map_cons, List.map_map]
    have hfn : ((fun (i : Nat) => [(a :: t).getD i 0]) ∘ Nat.succ)
        = (fun (i : Nat) => [t.getD i 0]) := by
      funext k
      simp [Function.comp]
    rw [hfn, ih, List.map_cons]
    rfl

theorem pyEncode_error_unicode (e : Encoding) :
    ∀ (t : List Nat) (err : PyError),
      pyEncode e t = .error err → err = .unicodeEncodeError := by
  intro t
  induction t with
  | nil =>
    intro err h
    simp [pyEncode] at h
  | cons c cs ih =>
    intro err h
    rw [pyEncode] at h
    cases hec : e.encodeChar c with
    | none =>
      rw [hec] at h
      injection h with h2
      exact h2.symm
    | some bs =>
      rw [hec] at h
      cases hrec : pyEncode e cs with
      | error err2 =>
        rw [hrec] at h
        injection h with h2
        exact h2 ▸ ih err2 hrec
      | ok rest =>
        rw [hrec] at h
        exact Except.noConfusion h

theorem pyEncode_error_iff (e : Encoding) (t : List Nat) :
    pyEncode e t = .error .unicodeEncodeError
      ↔ ∃ c ∈ t, e.encodeChar c = none := by
  induction t with
  | nil => simp [pyEncode]
  | cons c cs ih =>
    rw [pyEncode]
    cases hec : e.encodeChar c with
    | none =>
      constructor
      · intro _
        exact ⟨c, List.mem_cons_self c cs, hec⟩
      · intro _
        rfl
    | some bs =>
      cases hrec : pyEncode e cs with
      | error err =>
        have herr := pyEncode_error_unicode e cs err hrec
        subst herr
        constructor
        · intro _
          rcases ih.mp hrec with ⟨x, hx, hxe⟩
          exact ⟨x, List.mem_cons_of_mem c hx, hxe⟩
        · intro _
          rfl
      | ok rest =>
        constructor
        · intro h
          exact Except.noConfusion h
        · intro hex
          rcases hex with ⟨x, hx, hxe⟩
          rcases List.mem_cons.mp hx with hxc | hxcs
          · subst hxc
            rw [hxe] at hec
            exact Option.noConfusion hec
          · have hcs : pyEncode e cs = .error .unicodeEncodeError :=
              ih.mpr ⟨x, hxcs, hxe⟩
            rw [hcs] at hrec
            exact Except.noConfusion hrec

theorem bytesFormatLoop_cons (b : Nat) (rest : List Nat)
    (args : List FmtVal) :
    bytesFormatLoop (b :: rest) args
      = if b = 37 then
          (match rest with
           | [] => .error (.valueError "incomplete format")
           | c :: rest2 =>
             if c = 37 then emit [37] (bytesFormatLoop rest2 args)
             else if isConv c then
               match args with
               | [] => .error
                   (.typeError "not enough arguments for format string")
               | v :: args2 =>
                 match applyConv c v with
                 | .error e => .error e
                 | .ok piece => emit piece (bytesFormatLoop rest2 args2)
             else .error (.valueError "unsupported format character"))
        else emit [b] (bytesFormatLoop rest args) := by
  rw [bytesFormatLoop.eq_def]

theorem bytesFormatLoop_nil (args : List FmtVal) :
    bytesFormatLoop [] args
      = if args.isEmpty then .ok []
        else .error (.typeError
          "not all arguments converted during bytes formatting") := by
  rw [bytesFormatLoop.eq_def]

theorem formatLoop_literal :
    ∀ (t : List Nat), (∀ x ∈ t, x ≠ 37) →
      bytesFormatLoop t [] = .ok t := by
  intro t
  induction t with
  | nil =>
    intro _
    rfl
  | cons b rest ih =>
    intro h
    have hb : b ≠ 37 := h b (List.mem_cons_self b rest)
    rw [bytesFormatLoop_cons, if_neg hb,
      ih (fun x hx => h x (List.mem_cons_of_mem b hx))]
    rfl

/-! ## Claim theorems -/

/-- C1 counterexample: `octets(b"abc") % ()` does not return a new
`ByteSequence` — the result is the host `bytes` object, not an `octets`
instance: iterating it yields numeric byte values and `str()` on it
succeeds, both impossible for an `octets` instance. -/
theorem mod_result_not_octets_counterexample :
    octetsModTyped [97, 98, 99] (.tuple []) = .ok (.hostBytes [97, 98, 99]) ∧
    octetsModTyped [97, 98, 99] (.tuple [])
      ≠ .ok (.octetsInstance [97, 98, 99]) ∧
    pyIterate (.hostBytes [97, 98, 99]) = [.int 97, .int 98, .int 99] ∧
    pyStr (.hostBytes [97, 98, 99])
      ≠ .error (.typeError "Cannot implicitly decode octets instance") := by
  refine ⟨rfl, ?_, rfl, ?_⟩
  · intro h
    rw [show octetsModTyped [97, 98, 99] (.tuple [])
      = .ok (.hostBytes [97, 98, 99]) from rfl] at h
    injection h with h2
    exact PyBytesLike.noConfusion h2
  · intro h
    exact Except.noConfusion h

/-- C1 amended: a successful percent interpolation returns the host's
raw `bytes` object holding the formatted bytes (no `octets` instance is
constructed); in particular, for a template with no placeholder bytes
interpolated with the empty tuple, the returned object holds the
template's bytes unchanged. -/
theorem mod_formatted_host_bytes (t : List Nat) :
    (∀ (args : FmtArgs) (out : List Nat), bytesFormat t args = .ok out →
      octetsModTyped t args = .ok (.hostBytes out)) ∧
    ((∀ x ∈ t, x ≠ 37) →
      octetsModTyped t (.tuple []) = .ok (.hostBytes t) ∧
      ∀ b2 : List Nat,
        octetsModTyped t (.tuple []) ≠ .ok (.octetsInstance b2)) := by
  constructor
  · intro args out h
    unfold octetsModTyped
    rw [h]
    rfl
  · intro h
    have hfmt : bytesFormat t (.tuple []) = .ok t := formatLoop_literal t h
    constructor
    · unfold octetsModTyped
      rw [hfmt]
      rfl
    · intro b2 hcontra
      unfold octetsModTyped at hcontra
      rw [hfmt] at hcontra
      injection hcontra with h2
      exact PyBytesLike.noConfusion h2

theorem mod_formatted_host_bytes_witness :
    (∀ x ∈ [104, 105], x ≠ 37) ∧
    octetsModTyped [104, 105] (.tuple []) = .ok (.hostBytes [104, 105]) :=
  ⟨by decide, ((mod_formatted_host_bytes [104, 105]).2 (by decide)).1⟩

/-- C2 counterexample: a text argument does not always raise `TypeError` —
on the Python >= 3.5 path, the repr directive `%a` accepts the text
argument `"x"` and the operation succeeds, returning the bytes of
`ascii("x")`. -/
theorem mod_repr_accepts_text_counterexample :
    octetsMod [37, 97] (.single (.text [120])) = .ok [39, 120, 39] ∧
    ∀ msg, octetsMod [37, 97] (.single (.text [120]))
      ≠ .error (.typeError msg) := by
  refine ⟨rfl, ?_⟩
  intro msg h
  rw [show octetsMod [37, 97] (.single (.text [120])) = .ok [39, 120, 39]
    from rfl] at h
  exact Except.noConfusion h

/-- C2 amended: a text argument supplied to a bytes placeholder
(`%s`/`%b`) or a numeric placeholder (`%d`/`%i`/`%u`/`%o`/`%x`/`%X`/`%c`)
fails with `TypeError`; the repr placeholders `%a`/`%r` instead accept a
text argument and substitute its ASCII repr; bytes arguments for bytes
placeholders and numeric arguments for numeric placeholders are accepted
and formatted by the underlying primitive. -/
theorem mod_argument_typing :
    (∀ c : Nat, c = 115 ∨ c = 98 ∨ c = 100 ∨ c = 105 ∨ c = 117 ∨ c = 111 ∨
        c = 120 ∨ c = 88 ∨ c = 99 →
      ∀ t : List Nat, ∃ msg,
        octetsMod [37, c] (.single (.text t)) = .error (.typeError msg)) ∧
    (∀ c : Nat, c = 97 ∨ c = 114 → ∀ t : List Nat,
      octetsMod [37, c] (.single (.text t)) = .ok (pyAscii (.text t))) ∧
    (∀ bs : List Nat,
      octetsMod [37, 115] (.single (.bytes bs)) = .ok bs ∧
      octetsMod [37, 98] (.single (.bytes bs)) = .ok bs) ∧
    (∀ n : Int, octetsMod [37, 100] (.single (.int n)) = .ok (intStr n)) := by
  refine ⟨?_, ?_, ?_, ?_⟩
  · intro c hc t
    rcases hc with rfl | rfl | rfl | rfl | rfl | rfl | rfl | rfl | rfl <;>
      exact ⟨_, rfl⟩
  · intro c hc t
    rcases hc with rfl | rfl
    · have h0 : octetsMod [37, 97] (.single (.text t))
          = .ok (pyAscii (.text t) ++ []) := rfl
      rw [h0, List.append_nil]
    · have h0 : octetsMod [37, 114] (.single (.text t))
          = .ok (pyAscii (.text t) ++ []) := rfl
      rw [h0, List.append_nil]
  · intro bs
    constructor
    · have h0 : octetsMod [37, 115] (.single (.bytes bs))
          = .ok (bs ++ []) := rfl
      rw [h0, List.append_nil]
    · have h0 : octetsMod [37, 98] (.single (.bytes bs))
          = .ok (bs ++ []) := rfl
      rw [h0, List.append_nil]
  · intro n
    have h0 : octetsMod [37, 100] (.single (.int n))
        = .ok (intStr n ++ []) := rfl
    rw [h0, List.append_nil]

theorem mod_argument_typing_witness :
    ((115 : Nat) = 115 ∨ (115 : Nat) = 98 ∨ (115 : Nat) = 100 ∨
      (115 : Nat) = 105 ∨ (115 : Nat) = 117 ∨ (115 : Nat) = 111 ∨
      (115 : Nat) = 120 ∨ (115 : Nat) = 88 ∨ (115 : Nat) = 99) ∧
    ∃ msg, octetsMod [37, 115] (.single (.text [104, 105]))
      = .error (.typeError msg) :=
  ⟨Or.inl rfl, mod_argument_typing.1 115 (Or.inl rfl) [104, 105]⟩

/-- C3: text construction requires an encoding (`TypeError` without one);
with an encoding it encodes under the given error policy when one is
supplied and under the encoding's default (strict) behavior otherwise,
the default failing with an encoding error exactly when the text holds a
code point unencodable in the encoding. -/
theorem init_text_encoding_spec :
    (∀ (t : List Nat) (p : Option ErrorPolicy),
      octetsInit (.text t) none p
        = .error (.typeError "string argument without an encoding")) ∧
    (∀ (t : List Nat) (e : Encoding) (p : ErrorPolicy),
      octetsInit (.text t) (some e) (some p) = pyEncodeWith e p t) ∧
    (∀ (t : List Nat) (e : Encoding),
      octetsInit (.text t) (some e) none = pyEncode e t) ∧
    (∀ (t : List Nat) (e : Encoding),
      octetsInit (.text t) (some e) none = .error .unicodeEncodeError
        ↔ ∃ c ∈ t, e.encodeChar c = none) :=
  ⟨fun _ _ => rfl, fun _ _ _ => rfl, fun _ _ => rfl,
    fun t e => pyEncode_error_iff e t⟩

theorem init_text_encoding_spec_witness :
    octetsInit (.text [97]) none none
      = .error (.typeError "string argument without an encoding") :=
  init_text_encoding_spec.1 [97] none

/-- C4: integer indexing returns the one-byte sub-sequence at the
(negatively wrapped) position when the index is in range, raises
`IndexError` when it is out of range, and a key that is neither an
integer nor a slice raises `TypeError`. -/
theorem getitem_int_spec (b : List Nat) (i : Int) :
    (-(b.length : Int) ≤ i ∧ i < (b.length : Int) →
      (if i < 0 then i + b.length else i).toNat < b.length ∧
      octetsGetitem b (.int i)
        = .ok [b.getD (if i < 0 then i + b.length else i).toNat 0]) ∧
    (i < -(b.length : Int) ∨ (b.length : Int) ≤ i →
      octetsGetitem b (.int i) = .error .indexError) ∧
    (∀ ty, octetsGetitem b (.other ty)
      = .error (.typeError "octets indices must be integers")) := by
  refine ⟨?_, ?_, fun _ => rfl⟩
  · rintro ⟨ha, hb2⟩
    refine ⟨by omega, ?_⟩
    show (if i < -(b.length : Int) ∨ (b.length : Int) ≤ i then
      Except.error PyError.indexError else .ok (pySliceCore b (some i)
        (if i = -1 then none else some (i + 1)) none)) = _
    rw [if_neg (by omega), pySliceCore_single b i ha hb2]
  · intro h
    show (if i < -(b.length : Int) ∨ (b.length : Int) ≤ i then
      Except.error PyError.indexError else .ok (pySliceCore b (some i)
        (if i = -1 then none else some (i + 1)) none)) = _
    rw [if_pos h]

theorem getitem_int_spec_witness :
    (-(3 : Int) ≤ -1 ∧ (-1 : Int) < 3) ∧
    octetsGetitem [97, 98, 99] (.int (-1)) = .ok [99] :=
  ⟨by decide, ((getitem_int_spec [97, 98, 99] (-1)).1 (by decide)).2⟩

/-- C5: iteration yields exactly one element per stored byte, in storage
order, each element being the one-byte sub-sequence holding that byte
(never a bare numeric value). -/
theorem iter_single_byte_chunks (b : List Nat) :
    octetsIter b = b.map (fun c => [c]) ∧
    (octetsIter b).length = b.length ∧
    ∀ x ∈ octetsIter b, x.length = 1 := by
  have h1 : octetsIter b = b.map (fun c => [c]) := by
    rw [octetsIter]
    have hmap : ∀ i ∈ List.range b.length,
        pySliceCore b (some (i : Int)) (some ((i : Int) + 1)) none
          = [b.getD i 0] := by
      intro i hi
      have hilt : i < b.length := List.mem_range.mp hi
      have hne : ((i : Int)) ≠ -1 := by omega
      have hs := pySliceCore_single b (i : Int) (by omega) (by omega)
      rw [if_neg hne, if_neg (show ¬ ((i : Int) < 0) by omega)] at hs
      rw [hs]
      simp
    rw [List.map_congr_left hmap, range_map_getD]
  refine ⟨h1, ?_, ?_⟩
  · rw [h1, List.length_map]
  · intro x hx
    rw [h1] at hx
    rcases List.mem_map.mp hx with ⟨c, _, hc⟩
    rw [← hc]
    rfl

theorem iter_single_byte_chunks_witness :
    octetsIter [97, 98, 99] = [[97], [98], [99]] := by
  rw [(iter_single_byte_chunks [97, 98, 99]).1]
  rfl

/-- C6: a numeric source is converted to the ASCII encoding of its
standard base-10 textual representation, the encoding and error
parameters being ignored. -/
theorem init_numeric_ascii_base10 :
    (∀ (v : PyNumeric) (e : Option Encoding) (p : Option ErrorPolicy),
      octetsInit (.num v) e p = pyEncode asciiEncoding (pyStrNum v)) ∧
    octetsInit (.num (.int 10)) none none = .ok [49, 48] ∧
    octetsInit (.num (.int (-7))) none none = .ok [45, 55] :=
  ⟨fun _ _ _ => rfl, rfl, rfl⟩

/-- C7: slice access with a nonzero (or omitted) step equals the
spec-side standard slice semantics (half-open range, negative indices
counting from the end, negative step reversing, empty selection when the
range is empty), and a zero step raises `ValueError`. -/
theorem getitem_slice_standard (b : List Nat) (lo hi step : Option Int) :
    (step ≠ some 0 →
      octetsGetitem b (.slice lo hi step) = .ok (specSlice b lo hi step)) ∧
    octetsGetitem b (.slice lo hi (some 0))
      = .error (.valueError "slice step cannot be zero") := by
  constructor
  · intro h
    show pySliceBytes b lo hi step = _
    rw [pySliceBytes, if_neg h, pySliceCore_eq_specSlice b lo hi step h]
  · rfl

theorem getitem_slice_standard_witness :
    (some (-1) ≠ some (0 : Int)) ∧
    octetsGetitem [5, 6, 7, 8] (.slice none none (some (-1)))
      = .ok (specSlice [5, 6, 7, 8] none none (some (-1))) :=
  ⟨by decide,
    (getitem_slice_standard [5, 6, 7, 8] none none (some (-1))).1 (by decide)⟩

/-- C8: a raw bytes source passes through unchanged, whatever the
encoding and error parameters. -/
theorem init_bytes_passthrough :
    (∀ (b : List Nat) (e : Option Encoding) (p : Option ErrorPolicy),
      octetsInit (.bytes b) e p = .ok b) ∧
    octetsInit (.bytes [97]) none none = .ok [97] :=
  ⟨fun _ _ _ => rfl, rfl⟩

/-- C9: converting an instance to text always raises `TypeError`,
whatever the stored content (the empty sequence included). -/
theorem str_always_raises : ∀ (b : List Nat),
    octetsStr b
      = .error (.typeError "Cannot implicitly decode octets instance") :=
  fun _ => rfl

/-- C10: construction with no arguments succeeds and holds the empty byte
sequence (the source's parameter default is the empty bytes). -/
theorem init_no_args_empty : octetsInitNoArgs = .ok [] := rfl

end Octets
